import Mathlib

/-!
Verification development for the feedd documentation-indexing pipeline.

The TypeScript sources are shallowly embedded: JavaScript string builtins
are modelled as functions on `String.data` (the underlying character
list), stateful store clients become explicit state passing, and fallible
calls return `Except`.  Distances are modelled by `Int`: the comparator
`(a, b) => a.distance - b.distance` only inspects the ordering of
distances, so any linearly ordered carrier is faithful.
-/

namespace Feedd

/-! ## Models of JavaScript string builtins -/

/-- Model of `s.startsWith(p)`. -/
def jsStartsWith (s p : String) : Bool :=
  p.data.isPrefixOf s.data

/-- Model of `s.endsWith(p)`. -/
def jsEndsWith (s p : String) : Bool :=
  p.data.isSuffixOf s.data

/-- Does `needle` occur as a contiguous sub-list of `hay`? -/
def hasSubList (needle : List Char) : List Char → Bool
  | [] => needle.isEmpty
  | c :: rest => needle.isPrefixOf (c :: rest) || hasSubList needle rest

/-- Model of `s.includes(p)` (substring containment). -/
def jsIncludes (s p : String) : Bool :=
  hasSubList p.data s.data

/-- Model of `s.trim()`: strip whitespace from both ends. -/
def jsTrim (s : String) : String :=
  ⟨((s.data.dropWhile Char.isWhitespace).reverse.dropWhile Char.isWhitespace).reverse⟩

/-- Model of `s.substring(n)` / dropping the first `n` characters. -/
def jsDropChars (n : Nat) (s : String) : String :=
  ⟨s.data.drop n⟩

/-- Model of `xs.join(sep)`. -/
def jsJoin (sep : String) : List String → String
  | [] => ""
  | x :: rest => rest.foldl (fun acc y => acc ++ sep ++ y) x

/-- Worker for `splitOnList`, structurally recursive on a fuel argument
so that it evaluates inside the kernel; the fuel is the length of the
scanned list, which each step strictly decreases, so the fuel never
runs out when it starts at the list's length. -/
def splitOnListGo (s0 : Char) (ss : List Char) : Nat → List Char → List (List Char)
  | _, [] => [[]]
  | 0, l => [l]
  | fuel + 1, c :: rest =>
    if (s0 :: ss).isPrefixOf (c :: rest) then
      [] :: splitOnListGo s0 ss fuel (rest.drop ss.length)
    else
      match splitOnListGo s0 ss fuel rest with
      | [] => [[c]]
      | p :: ps => (c :: p) :: ps

/-- Split a character list on every occurrence of the (non-empty)
separator `s0 :: ss`, as `String.prototype.split` does. -/
def splitOnList (s0 : Char) (ss : List Char) (l : List Char) : List (List Char) :=
  splitOnListGo s0 ss l.length l

/-- Model of `s.split(sep)` for a non-empty separator (for an empty
separator it returns the string unsplit; the sources never split on
the empty string). -/
def jsSplitOn (sep s : String) : List String :=
  match sep.data with
  | [] => [s]
  | c :: cs => (splitOnList c cs s.data).map String.mk

/-- Model of `s.split('\n')`. -/
def jsLines (s : String) : List String :=
  jsSplitOn "\n" s

/-- Model of `s.indexOf(c)` returning `none` for `-1`. -/
def jsIndexOf (s : String) (c : Char) : Option Nat :=
  s.data.findIdx? (· == c)

/-- Model of the JavaScript `a || b` idiom on possibly-missing strings:
`undefined` and the empty string are falsy. -/
def jsOrOpt (a b : Option String) : Option String :=
  match a with
  | some s => if s = "" then b else some s
  | none => b

/-- Model of `a || dflt` where `dflt` is a plain string. -/
def jsOrDefault (a : Option String) (dflt : String) : String :=
  match a with
  | some s => if s = "" then dflt else s
  | none => dflt

/-! ## Search results and the stable sort

Both aggregators sort with `results.sort((a, b) => a.distance - b.distance)`.
`Array.prototype.sort` is stable (ECMAScript 2019), and with this
comparator it orders by ascending distance keeping ties in input order;
that is exactly `List.insertionSort` with the ≤-on-distance relation. -/

structure SearchResult where
  content : String
  distance : Int
deriving DecidableEq, Repr

/-- Ordering used by the JS comparator `(a, b) => a.distance - b.distance`. -/
def distLE (a b : SearchResult) : Prop :=
  a.distance ≤ b.distance

instance : DecidableRel distLE := fun a b => Int.decLe a.distance b.distance

instance : IsTotal SearchResult distLE := ⟨fun a b => Int.le_total a.distance b.distance⟩

instance : IsTrans SearchResult distLE := ⟨fun _ _ _ h h' => Int.le_trans h h'⟩

/-- Model of `results.sort((a, b) => a.distance - b.distance)`. -/
def jsSortByDistance (l : List SearchResult) : List SearchResult :=
  List.insertionSort distLE l

theorem jsSortByDistance_sorted (l : List SearchResult) :
    List.Pairwise distLE (jsSortByDistance l) :=
  List.sorted_insertionSort distLE l

theorem filter_orderedInsert_dist (a : SearchResult) (d : Int) :
    ∀ m : List SearchResult,
      (List.orderedInsert distLE a m).filter (fun x => decide (x.distance = d)) =
        if a.distance = d then a :: m.filter (fun x => decide (x.distance = d))
        else m.filter (fun x => decide (x.distance = d)) := by
  intro m
  induction m with
  | nil =>
    by_cases h : a.distance = d <;> simp [List.orderedInsert, List.filter, h]
  | cons b m ih =>
    by_cases hab : distLE a b
    · rw [List.orderedInsert_of_le _ _ hab]
      by_cases h : a.distance = d <;> simp [List.filter, h]
    · have hblt : b.distance < a.distance := by
        simpa [distLE, not_le] using hab
      show (List.orderedInsert distLE a (b :: m)).filter _ = _
      rw [List.orderedInsert, if_neg hab]
      by_cases hb : b.distance = d
      · have ha : ¬ a.distance = d := by
          intro h
          rw [h, hb] at hblt
          exact lt_irrefl d hblt
        simp [List.filter, hb, ha, ih]
      · by_cases h : a.distance = d <;> simp [List.filter, hb, h, ih]

/-- Stability of the JS sort: for every distance value, the results at
that distance appear in the same order as in the unsorted input. -/
theorem jsSortByDistance_stable (d : Int) :
    ∀ l : List SearchResult,
      (jsSortByDistance l).filter (fun x => decide (x.distance = d)) =
        l.filter (fun x => decide (x.distance = d)) := by
  intro l
  induction l with
  | nil => rfl
  | cons a l ih =>
    show (List.orderedInsert distLE a (List.insertionSort distLE l)).filter _ = _
    rw [filter_orderedInsert_dist]
    simp only [jsSortByDistance] at ih
    by_cases h : a.distance = d <;> simp [List.filter, h, ih]

/-! ## Vector store adapters

`src/src/indexer/vectordb.ts` (ChromaDB client) and
`src/src/storage/lancedb.ts` (LanceDB client) are thin adapters over
external store services.  A store is modelled as an association list
from collection/table name to its data; the external nearest-neighbour
query is modelled by the ranked result list the service would return,
plus an optional failure for transient store errors.  Client errors are
JavaScript exceptions carrying a message string; the clients reject a
lookup of a missing collection with a message containing the phrase the
adapters test for (`does not exist` for ChromaDB, `not found` for
LanceDB). -/

structure JsError where
  message : String
deriving DecidableEq, Repr

structure CollectionData where
  results : List SearchResult
  queryFailure : Option JsError
deriving DecidableEq, Repr

structure ChromaStore where
  colls : List (String × CollectionData)
deriving DecidableEq, Repr

/-- Model of `client.getCollection({name})`: the external client resolves
the collection or rejects with a `does not exist` error. -/
def getCollection (st : ChromaStore) (name : String) : Except JsError CollectionData :=
  match st.colls.find? (fun p => p.1 == name) with
  | some p => .ok p.2
  | none => .error ⟨"Collection does not exist."⟩

/-- Model of `collection.query({queryEmbeddings, nResults})`: the service
returns up to `nResults` nearest neighbours (ascending distance), or
fails with a store error. -/
def chromaQuery (c : CollectionData) (limit : Nat) : Except JsError (List SearchResult) :=
  match c.queryFailure with
  | some e => .error e
  | none => .ok (c.results.take limit)

/-- Embeds `searchInCollection` (src/src/indexer/vectordb.ts lines 79-113):
get the collection, query it, and in the catch branch return `[]` when
the error message contains `does not exist`, otherwise rethrow wrapped. -/
def searchInCollection (st : ChromaStore) (sourceId : String)
    (queryEmbedding : List Int) (limit : Nat) : Except JsError (List SearchResult) :=
  let attempt : Except JsError (List SearchResult) :=
    match getCollection st sourceId with
    | .error e => .error e
    | .ok c => chromaQuery c limit
  match attempt with
  | .ok rs => .ok rs
  | .error e =>
    if jsIncludes e.message "does not exist" then .ok []
    else .error ⟨"Failed to search in collection: " ++ e.message⟩

/-- Embeds `listCollections` (src/src/indexer/vectordb.ts lines 115-124). -/
def listCollections (st : ChromaStore) : List String :=
  st.colls.map (·.1)

/-- Loop body of the `search_docs` handler when no source filter is given
(src/unnamed/part_000 lines 261-271): query each collection in turn,
pushing results; an exception propagates to the handler's outer catch. -/
def searchDocsGo (st : ChromaStore) (qe : List Int) (limit : Nat) :
    List String → List SearchResult → Except JsError (List SearchResult)
  | [], acc => .ok acc
  | c :: cs, acc =>
    match searchInCollection st c qe limit with
    | .error e => .error e
    | .ok rs => searchDocsGo st qe limit cs (acc ++ rs)

/-- Embeds the aggregated branch of the MCP `search_docs` handler
(src/unnamed/part_000 lines 261-276): query every collection from
`listCollections()`, then sort by distance and truncate to `limit`. -/
def searchDocsAll (st : ChromaStore) (qe : List Int) (limit : Nat) :
    Except JsError (List SearchResult) :=
  match searchDocsGo st qe limit (listCollections st) [] with
  | .error e => .error e
  | .ok rs => .ok ((jsSortByDistance rs).take limit)

/-- One LanceDB table: ranked results plus an optional query failure. -/
structure TableData where
  results : List SearchResult
  queryFailure : Option JsError
deriving DecidableEq, Repr

structure LanceStore where
  tables : List (String × TableData)
deriving DecidableEq, Repr

/-- Model of `connection.openTable(repoId)`: resolves the table or
rejects with a `not found` error. -/
def lanceOpenTable (st : LanceStore) (name : String) : Except JsError TableData :=
  match st.tables.find? (fun p => p.1 == name) with
  | some p => .ok p.2
  | none => .error ⟨"Table was not found"⟩

/-- Is the error a missing-table error per the lancedb.ts check
`error.message?.includes('not found') || error.message?.includes('does not exist')`? -/
def lanceMissing (e : JsError) : Bool :=
  jsIncludes e.message "not found" || jsIncludes e.message "does not exist"

/-- Embeds `search` (src/src/storage/lancedb.ts lines 115-145): open the
table and run the vector query; in the catch branch return `[]` for a
missing table, otherwise rethrow. -/
def lanceSearch (st : LanceStore) (repoId : String)
    (queryVector : List Int) (limit : Nat) : Except JsError (List SearchResult) :=
  let attempt : Except JsError (List SearchResult) :=
    match lanceOpenTable st repoId with
    | .error e => .error e
    | .ok t =>
      match t.queryFailure with
      | some e => .error e
      | none => .ok (t.results.take limit)
  match attempt with
  | .ok rs => .ok rs
  | .error e => if lanceMissing e then .ok [] else .error e

/-- Embeds `listTables` (src/src/storage/lancedb.ts lines 168-171). -/
def listTables (st : LanceStore) : List String :=
  st.tables.map (·.1)

/-- Embeds the all-repos branch of `searchCommand`
(src/unnamed/part_004 lines 39-68): search every table from
`listTables()`, swallowing per-table errors (`catch` with empty body),
then sort the concatenation by `_distance` and truncate to `limit`. -/
def searchCommandAll (st : LanceStore) (qv : List Int) (limit : Nat) : List SearchResult :=
  let allResults := (listTables st).flatMap fun repoId =>
    match lanceSearch st repoId qv limit with
    | .ok rs => rs
    | .error _ => []
  (jsSortByDistance allResults).take limit

/-! ## Retrieval aggregation lemmas -/

/-- The concatenation, in collection order, of the per-collection
result lists (each truncated to `limit` by the store query). -/
def perCollectionResults (st : ChromaStore) (limit : Nat) : List SearchResult :=
  (listCollections st).flatMap fun name =>
    match getCollection st name with
    | .ok c => c.results.take limit
    | .error _ => []

theorem getCollection_of_mem (st : ChromaStore) (name : String)
    (h : name ∈ listCollections st) :
    ∃ c, getCollection st name = .ok c ∧ (name, c) ∈ st.colls := by
  simp only [listCollections, List.mem_map] at h
  obtain ⟨p, hp, hname⟩ := h
  have hsome : (st.colls.find? (fun q => q.1 == name)).isSome := by
    rw [List.find?_isSome]
    exact ⟨p, hp, by simp [hname]⟩
  obtain ⟨q, hq⟩ := Option.isSome_iff_exists.mp hsome
  have hqmem := List.mem_of_find?_eq_some hq
  have hqname : q.1 = name := by
    have := List.find?_some hq
    simpa using this
  refine ⟨q.2, ?_, ?_⟩
  · simp [getCollection, hq]
  · rw [← hqname]
    exact hqmem

theorem searchInCollection_healthy (st : ChromaStore) (qe : List Int) (limit : Nat)
    (h : ∀ p ∈ st.colls, p.2.queryFailure = none)
    (name : String) (hmem : name ∈ listCollections st) :
    ∃ c, getCollection st name = .ok c ∧
      searchInCollection st name qe limit = .ok (c.results.take limit) := by
  obtain ⟨c, hc, hcm⟩ := getCollection_of_mem st name hmem
  have hnone : c.queryFailure = none := h (name, c) hcm
  exact ⟨c, hc, by simp [searchInCollection, hc, chromaQuery, hnone]⟩

theorem searchDocsGo_healthy (st : ChromaStore) (qe : List Int) (limit : Nat)
    (h : ∀ p ∈ st.colls, p.2.queryFailure = none) :
    ∀ names, (∀ n ∈ names, n ∈ listCollections st) → ∀ acc,
      searchDocsGo st qe limit names acc =
        .ok (acc ++ names.flatMap fun name =>
          match getCollection st name with
          | .ok c => c.results.take limit
          | .error _ => []) := by
  intro names
  induction names with
  | nil => intro _ acc; simp [searchDocsGo]
  | cons n ns ih =>
    intro hns acc
    obtain ⟨c, hc, hsearch⟩ :=
      searchInCollection_healthy st qe limit h n (hns n (by simp))
    rw [searchDocsGo, hsearch]
    dsimp only
    rw [ih (fun m hm => hns m (by simp [hm]))]
    simp [hc]

/-- C1.  With every collection healthy, the aggregated `search_docs`
branch queries each collection from `listCollections()`, concatenates,
stably sorts the concatenation by ascending distance and truncates to
`limit`; the returned list has length at most `limit`, is in
non-decreasing distance order, and ties keep the order in which the
collections were queried (the filter at any fixed distance `d` is
unchanged by the sort). -/
theorem searchDocs_aggregates_sorted_truncated
    (st : ChromaStore) (qe : List Int) (limit : Nat) (d : Int)
    (h : ∀ p ∈ st.colls, p.2.queryFailure = none) :
    searchDocsAll st qe limit =
        .ok ((jsSortByDistance (perCollectionResults st limit)).take limit) ∧
      ((jsSortByDistance (perCollectionResults st limit)).take limit).length ≤ limit ∧
      List.Pairwise distLE
        ((jsSortByDistance (perCollectionResults st limit)).take limit) ∧
      (jsSortByDistance (perCollectionResults st limit)).filter
          (fun x => decide (x.distance = d)) =
        (perCollectionResults st limit).filter (fun x => decide (x.distance = d)) := by
  refine ⟨?_, ?_, ?_, ?_⟩
  · rw [searchDocsAll, searchDocsGo_healthy st qe limit h (listCollections st) (fun _ hm => hm) []]
    rfl
  · exact List.length_take_le limit _
  · exact (jsSortByDistance_sorted _).sublist (List.take_sublist _ _)
  · exact jsSortByDistance_stable d _

/-- Concrete instantiation for `searchDocs_aggregates_sorted_truncated`:
two healthy collections, three results each, limit 2. -/
def c1Store : ChromaStore :=
  ⟨[("libA", ⟨[⟨"a1", 3⟩, ⟨"a2", 7⟩, ⟨"a3", 9⟩], none⟩),
    ("libB", ⟨[⟨"b1", 3⟩, ⟨"b2", 5⟩], none⟩)]⟩

theorem searchDocs_aggregates_witness :
    searchDocsAll c1Store [0] 2 =
        .ok ((jsSortByDistance (perCollectionResults c1Store 2)).take 2) ∧
      ((jsSortByDistance (perCollectionResults c1Store 2)).take 2).length ≤ 2 ∧
      List.Pairwise distLE ((jsSortByDistance (perCollectionResults c1Store 2)).take 2) ∧
      (jsSortByDistance (perCollectionResults c1Store 2)).filter
          (fun x => decide (x.distance = (3 : Int))) =
        (perCollectionResults c1Store 2).filter (fun x => decide (x.distance = (3 : Int))) :=
  searchDocs_aggregates_sorted_truncated c1Store [0] 2 3 (by decide)

/-! ## Missing collections and per-collection failures -/

/-- C8.  Querying a collection name absent from the ChromaDB store
(`searchInCollection`) or a table name absent from the LanceDB store
(`search`) returns `Except.ok []` — the missing-collection error is
caught and turned into an empty result list, not an error. -/
theorem query_missing_collection_empty
    (stC : ChromaStore) (stL : LanceStore) (name : String)
    (qv : List Int) (limit : Nat)
    (hC : ∀ p ∈ stC.colls, p.1 ≠ name)
    (hL : ∀ p ∈ stL.tables, p.1 ≠ name) :
    searchInCollection stC name qv limit = .ok [] ∧
      lanceSearch stL name qv limit = .ok [] := by
  have hfC : stC.colls.find? (fun p => p.1 == name) = none := by
    rw [List.find?_eq_none]
    intro p hp
    simpa using hC p hp
  have hfL : stL.tables.find? (fun p => p.1 == name) = none := by
    rw [List.find?_eq_none]
    intro p hp
    simpa using hL p hp
  constructor
  · have hg : getCollection stC name = .error ⟨"Collection does not exist."⟩ := by
      simp [getCollection, hfC]
    have hinc : jsIncludes "Collection does not exist." "does not exist" = true := by decide
    simp [searchInCollection, hg, hinc]
  · have ho : lanceOpenTable stL name = .error ⟨"Table was not found"⟩ := by
      simp [lanceOpenTable, hfL]
    have hmiss : lanceMissing ⟨"Table was not found"⟩ = true := by decide
    simp [lanceSearch, ho, hmiss]

theorem query_missing_collection_witness :
    searchInCollection ⟨[("libA", ⟨[], none⟩)]⟩ "libB" [0] 5 = .ok [] ∧
      lanceSearch ⟨[("repoA", ⟨[], none⟩)]⟩ "libB" [0] 5 = .ok [] :=
  query_missing_collection_empty ⟨[("libA", ⟨[], none⟩)]⟩ ⟨[("repoA", ⟨[], none⟩)]⟩
    "libB" [0] 5 (by decide) (by decide)

/-- Store on which one collection's query fails with a non-missing
store error while the other collection is healthy. -/
def c2Store : ChromaStore :=
  ⟨[("bad", ⟨[], some ⟨"boom"⟩⟩), ("good", ⟨[⟨"useful", 1⟩], none⟩)]⟩

/-- C2 counterexample.  In the MCP `search_docs` aggregation a
per-collection store failure is NOT swallowed: with collection `bad`
failing (message `boom`) and collection `good` healthy, the overall
aggregated search surfaces the error instead of returning `good`'s
results. -/
theorem searchDocs_failure_not_swallowed :
    searchDocsAll c2Store [0] 5 =
        .error ⟨"Failed to search in collection: boom"⟩ ∧
      searchInCollection c2Store "good" [0] 5 = .ok [⟨"useful", 1⟩] := by
  constructor
  · rfl
  · rfl

/-- Look up a LanceDB table by name, as `openTable` resolves it. -/
def lookupTable (st : LanceStore) (name : String) : Option TableData :=
  (st.tables.find? (fun p => p.1 == name)).map (·.2)

/-- Remove every table entry called `name`. -/
def removeTable (st : LanceStore) (name : String) : LanceStore :=
  ⟨st.tables.filter (fun p => !(p.1 == name))⟩

theorem find?_filter_name_ne (l : List (String × TableData)) (name id : String)
    (h : id ≠ name) :
    (l.filter (fun p => !(p.1 == name))).find? (fun p => p.1 == id) =
      l.find? (fun p => p.1 == id) := by
  induction l with
  | nil => rfl
  | cons p l ih =>
    rw [List.filter_cons]
    by_cases hp : p.1 = name
    · have h1 : (!(p.1 == name)) = false := by simp [hp]
      have h2 : (p.1 == id) = false := by
        rw [hp]
        exact beq_eq_false_iff_ne.mpr (fun hh => h hh.symm)
      rw [h1, if_neg (by simp), List.find?_cons, h2]
      exact ih
    · have h1 : (!(p.1 == name)) = true := by simp [hp]
      rw [h1, if_pos rfl, List.find?_cons, List.find?_cons]
      cases hq : (p.1 == id) with
      | true => rfl
      | false => exact ih

theorem listTables_removeTable (st : LanceStore) (name : String) :
    listTables (removeTable st name) =
      (listTables st).filter (fun id => !(id == name)) := by
  show (st.tables.filter (fun p => !(p.1 == name))).map (·.1) =
    (st.tables.map (·.1)).filter (fun id => !(id == name))
  induction st.tables with
  | nil => rfl
  | cons p l ih =>
    rw [List.filter_cons, List.map_cons, List.filter_cons]
    cases hp : (!(p.1 == name)) with
    | true => rw [if_pos rfl, if_pos rfl, List.map_cons, ih]
    | false => rw [if_neg (by simp [hp]), if_neg (by simp [hp]), ih]

theorem flatMap_drop_empty (name : String) (f g : String → List SearchResult)
    (hf : f name = []) (hfg : ∀ id, id ≠ name → f id = g id) :
    ∀ l : List String, l.flatMap f = (l.filter (fun id => !(id == name))).flatMap g := by
  intro l
  induction l with
  | nil => rfl
  | cons id l ih =>
    rw [List.flatMap_cons, List.filter_cons]
    by_cases hid : id = name
    · subst hid
      rw [hf, if_neg (by simp), ih]
      rfl
    · rw [if_pos (by simp [hid]), List.flatMap_cons, hfg id hid, ih]

/-- C2 amended.  In the CLI `searchCommand` aggregation a per-table
failure IS swallowed: if the query on table `name` fails (with any
error), the aggregated search result is the same as if that table did
not exist at all — the failing table contributes zero results and the
remaining tables are still merged. -/
theorem searchCommand_swallows_failure
    (st : LanceStore) (name : String) (t : TableData) (e : JsError)
    (qv : List Int) (limit : Nat)
    (hl : lookupTable st name = some t)
    (he : t.queryFailure = some e) :
    searchCommandAll st qv limit = searchCommandAll (removeTable st name) qv limit := by
  obtain ⟨p, hp, hpt⟩ : ∃ p, st.tables.find? (fun q => q.1 == name) = some p ∧ p.2 = t := by
    unfold lookupTable at hl
    cases hf : st.tables.find? (fun q => q.1 == name) with
    | none => rw [hf] at hl; simp at hl
    | some p => rw [hf] at hl; exact ⟨p, rfl, by simpa using hl⟩
  have hopen : lanceOpenTable st name = .ok t := by
    simp [lanceOpenTable, hp, hpt]
  have hcontrib :
      (match lanceSearch st name qv limit with
        | .ok rs => rs
        | .error _ => []) = [] := by
    simp only [lanceSearch, hopen, he]
    by_cases hm : lanceMissing e = true <;> simp [hm]
  unfold searchCommandAll
  rw [listTables_removeTable]
  rw [flatMap_drop_empty name
    (fun id => match lanceSearch st id qv limit with | .ok rs => rs | .error _ => [])
    (fun id => match lanceSearch (removeTable st name) id qv limit with
      | .ok rs => rs | .error _ => [])
    hcontrib
    (fun id hid => by
      have : lanceOpenTable (removeTable st name) id = lanceOpenTable st id := by
        simp only [lanceOpenTable, removeTable]
        rw [find?_filter_name_ne st.tables name id hid]
      simp only [lanceSearch, this])
    (listTables st)]

theorem searchCommand_swallows_witness :
    searchCommandAll ⟨[("bad", ⟨[], some ⟨"boom"⟩⟩), ("good", ⟨[⟨"useful", 1⟩], none⟩)]⟩ [0] 5 =
      searchCommandAll
        (removeTable ⟨[("bad", ⟨[], some ⟨"boom"⟩⟩), ("good", ⟨[⟨"useful", 1⟩], none⟩)]⟩ "bad")
        [0] 5 :=
  searchCommand_swallows_failure
    ⟨[("bad", ⟨[], some ⟨"boom"⟩⟩), ("good", ⟨[⟨"useful", 1⟩], none⟩)]⟩
    "bad" ⟨[], some ⟨"boom"⟩⟩ ⟨"boom"⟩ [0] 5 (by decide) (by decide)

/-! ## Section-based chunker (src/unnamed/part_003)

`splitBySections` walks the document line by line, flushing the
in-progress segment at every `#`/`##`/`###` header line and tracking the
current h1/h2/h3 context.  `chunkMarkdownFile` turns the surviving
sections into chunks, dropping those whose trimmed content is shorter
than 50 characters. -/

structure MdSection where
  content : String
  h1 : Option String
  h2 : Option String
  h3 : Option String
deriving DecidableEq, Repr

/-- Header text of a header line: model of
`line.replace(/^#+\s+/, '').trim()` for a line known to start with
`n` hash marks followed by a space (dropping the hashes and trimming
removes exactly the hashes and the surrounding whitespace). -/
def headerText (n : Nat) (line : String) : String :=
  jsTrim (jsDropChars n line)

structure SplitState where
  h1 : Option String
  h2 : Option String
  h3 : Option String
  cur : List String
  secs : List MdSection
deriving DecidableEq, Repr

/-- Embeds the inner `flushSection()` of `splitBySections`
(src/unnamed/part_003 lines 132-142): push the joined, trimmed current
content if non-empty, carrying the current header context. -/
def flushSection (st : SplitState) : SplitState :=
  if st.cur = [] then st
  else
    { st with
      secs := st.secs ++ [⟨jsTrim (jsJoin "\n" st.cur), st.h1, st.h2, st.h3⟩]
      cur := [] }

/-- Embeds the loop body of `splitBySections`
(src/unnamed/part_003 lines 144-161). -/
def splitStep (st : SplitState) (line : String) : SplitState :=
  if jsStartsWith line "# " then
    let st := flushSection st
    { st with h1 := some (headerText 1 line), h2 := none, h3 := none }
  else if jsStartsWith line "## " then
    let st := flushSection st
    { st with h2 := some (headerText 2 line), h3 := none }
  else if jsStartsWith line "### " then
    let st := flushSection st
    { st with h3 := some (headerText 3 line) }
  else { st with cur := st.cur ++ [line] }

/-- Embeds `splitBySections` (src/unnamed/part_003 lines 123-167). -/
def splitBySections (markdown : String) : List MdSection :=
  (flushSection ((jsLines markdown).foldl splitStep ⟨none, none, none, [], []⟩)).secs

/-! Claim-side description of the same walk (per the spec, §4.2): an
independent per-line state machine where a header line flushes the
in-progress segment and resets the corresponding header level, clearing
deeper levels, and every emitted segment carries the header values at
the moment it was flushed. -/

structure HeaderCtx where
  h1 : Option String
  h2 : Option String
  h3 : Option String
deriving DecidableEq, Repr

/-- Header transition described by the claim: `#` sets h1 and clears h2
and h3, `##` sets h2 and clears h3, `###` sets h3; `none` for a
non-header line. -/
def headerStep (h : HeaderCtx) (line : String) : Option HeaderCtx :=
  if jsStartsWith line "# " then
    some ⟨some (headerText 1 line), none, none⟩
  else if jsStartsWith line "## " then
    some ⟨h.h1, some (headerText 2 line), none⟩
  else if jsStartsWith line "### " then
    some ⟨h.h1, h.h2, some (headerText 3 line)⟩
  else none

/-- Flushing the in-progress segment: nothing if it is empty, otherwise
one section carrying the current header context. -/
def emitSegment (h : HeaderCtx) (cur : List String) : List MdSection :=
  if cur = [] then [] else [⟨jsTrim (jsJoin "\n" cur), h.h1, h.h2, h.h3⟩]

/-- The claim-side walk over the remaining lines. -/
def sectionsSpecGo (h : HeaderCtx) (cur : List String) : List String → List MdSection
  | [] => emitSegment h cur
  | l :: ls =>
    match headerStep h l with
    | some h2 => emitSegment h cur ++ sectionsSpecGo h2 [] ls
    | none => sectionsSpecGo h (cur ++ [l]) ls

/-- The section list as the claim describes it. -/
def sectionsSpec (markdown : String) : List MdSection :=
  sectionsSpecGo ⟨none, none, none⟩ [] (jsLines markdown)

theorem flushSection_secs (st : SplitState) :
    (flushSection st).secs = st.secs ++ emitSegment ⟨st.h1, st.h2, st.h3⟩ st.cur := by
  unfold flushSection emitSegment
  by_cases h : st.cur = [] <;> simp [h]

theorem flushSection_h1 (st : SplitState) : (flushSection st).h1 = st.h1 := by
  unfold flushSection
  by_cases h : st.cur = [] <;> simp [h]

theorem flushSection_h2 (st : SplitState) : (flushSection st).h2 = st.h2 := by
  unfold flushSection
  by_cases h : st.cur = [] <;> simp [h]

theorem flushSection_h3 (st : SplitState) : (flushSection st).h3 = st.h3 := by
  unfold flushSection
  by_cases h : st.cur = [] <;> simp [h]

theorem flushSection_cur (st : SplitState) : (flushSection st).cur = [] := by
  unfold flushSection
  by_cases h : st.cur = [] <;> simp [h]

theorem sectionsSpecGo_cons_header (h : HeaderCtx) (cur : List String)
    (l : String) (ls : List String) (h' : HeaderCtx)
    (hh : headerStep h l = some h') :
    sectionsSpecGo h cur (l :: ls) = emitSegment h cur ++ sectionsSpecGo h' [] ls := by
  simp only [sectionsSpecGo, hh]

theorem sectionsSpecGo_cons_content (h : HeaderCtx) (cur : List String)
    (l : String) (ls : List String) (hh : headerStep h l = none) :
    sectionsSpecGo h cur (l :: ls) = sectionsSpecGo h (cur ++ [l]) ls := by
  simp only [sectionsSpecGo, hh]

theorem foldl_splitStep_spec (ls : List String) :
    ∀ st : SplitState,
      (flushSection (ls.foldl splitStep st)).secs =
        st.secs ++ sectionsSpecGo ⟨st.h1, st.h2, st.h3⟩ st.cur ls := by
  induction ls with
  | nil =>
    intro st
    rw [List.foldl_nil, flushSection_secs]
    rfl
  | cons l ls ih =>
    intro st
    rw [List.foldl_cons, ih]
    by_cases h1 : jsStartsWith l "# " = true
    · have hstep : splitStep st l =
          { flushSection st with h1 := some (headerText 1 l), h2 := none, h3 := none } := by
        simp [splitStep, h1]
      rw [hstep]
      dsimp only
      rw [flushSection_secs, flushSection_cur,
        sectionsSpecGo_cons_header ⟨st.h1, st.h2, st.h3⟩ st.cur l ls
          ⟨some (headerText 1 l), none, none⟩ (by simp [headerStep, h1]),
        List.append_assoc]
    · by_cases h2 : jsStartsWith l "## " = true
      · have hstep : splitStep st l =
            { flushSection st with h2 := some (headerText 2 l), h3 := none } := by
          simp [splitStep, h1, h2]
        rw [hstep]
        dsimp only
        rw [flushSection_secs, flushSection_cur, flushSection_h1,
          sectionsSpecGo_cons_header ⟨st.h1, st.h2, st.h3⟩ st.cur l ls
            ⟨st.h1, some (headerText 2 l), none⟩ (by simp [headerStep, h1, h2]),
          List.append_assoc]
      · by_cases h3 : jsStartsWith l "### " = true
        · have hstep : splitStep st l =
              { flushSection st with h3 := some (headerText 3 l) } := by
            simp [splitStep, h1, h2, h3]
          rw [hstep]
          dsimp only
          rw [flushSection_secs, flushSection_cur, flushSection_h1, flushSection_h2,
            sectionsSpecGo_cons_header ⟨st.h1, st.h2, st.h3⟩ st.cur l ls
              ⟨st.h1, st.h2, some (headerText 3 l)⟩ (by simp [headerStep, h1, h2, h3]),
            List.append_assoc]
        · have hstep : splitStep st l = { st with cur := st.cur ++ [l] } := by
            simp [splitStep, h1, h2, h3]
          rw [hstep]
          dsimp only
          rw [sectionsSpecGo_cons_content ⟨st.h1, st.h2, st.h3⟩ st.cur l ls
            (by simp [headerStep, h1, h2, h3])]

/-- C6.  `splitBySections` is exactly the per-line state machine the
claim describes: a `#`/`##`/`###` line flushes the in-progress segment
and sets that header level, clearing the deeper ones, and every emitted
section carries the header context current at its flush. -/
theorem splitBySections_eq_sectionsSpec (markdown : String) :
    splitBySections markdown = sectionsSpec markdown := by
  unfold splitBySections sectionsSpec
  rw [foldl_splitStep_spec]
  rfl

/-! ## Frontmatter parsing and chunk construction (src/unnamed/part_003) -/

/-- One `key: value` line of the simple YAML parser
(src/unnamed/part_003 lines 104-111): split at the first colon if its
index is positive. -/
def parseFmLine (line : String) : Option (String × String) :=
  match jsIndexOf line ':' with
  | none => none
  | some 0 => none
  | some i => some (jsTrim ⟨line.data.take i⟩, jsTrim ⟨line.data.drop (i + 1)⟩)

def parseFmPairs (fmText : String) : List (String × String) :=
  (jsLines fmText).filterMap parseFmLine

/-- Reading a key of the frontmatter object: assignment is
last-writer-wins. -/
def fmGet (fm : List (String × String)) (k : String) : Option String :=
  (fm.reverse.find? (fun p => p.1 == k)).map (·.2)

/-- Embeds `parseFrontmatter` (src/unnamed/part_003 lines 89-114).  The
lazy regex `^---\n([\s\S]*?)\n---\n([\s\S]*)$` matches when the content
starts with `---\n` and the delimiter `\n---\n` occurs afterwards; the
frontmatter block ends at the first such occurrence. -/
def parseFrontmatter (content : String) : List (String × String) × String :=
  if jsStartsWith content "---\n" then
    match jsSplitOn "\n---\n" (jsDropChars 4 content) with
    | [] => ([], content)
    | [_] => ([], content)
    | fmText :: tail => (parseFmPairs fmText, jsJoin "\n---\n" tail)
  else ([], content)

structure ChunkMeta where
  source_id : String
  url : String
  title : String
  h1 : Option String
  h2 : Option String
  h3 : Option String
  file_path : String
deriving DecidableEq, Repr

structure Chunk where
  content : String
  metadata : ChunkMeta
deriving DecidableEq, Repr

/-- Embeds `chunkMarkdownFile` (src/unnamed/part_003 lines 57-87):
sections whose trimmed content is shorter than 50 characters are
skipped; the rest become chunks carrying the frontmatter fields and the
section's header context. -/
def chunkMarkdownFile (content filePath sourceId : String) : List Chunk :=
  let fm := (parseFrontmatter content).1
  let markdown := (parseFrontmatter content).2
  (splitBySections markdown).filterMap fun sec =>
    if (jsTrim sec.content).length < 50 then none
    else some ⟨sec.content,
      { source_id := sourceId
        url := jsOrDefault (fmGet fm "url") ""
        title := jsOrDefault (fmGet fm "title") ""
        h1 := jsOrOpt (fmGet fm "h1") sec.h1
        h2 := sec.h2
        h3 := sec.h3
        file_path := filePath }⟩

theorem jsTrim_length_le (s : String) : (jsTrim s).length ≤ s.length := by
  show ((s.data.dropWhile Char.isWhitespace).reverse.dropWhile
    Char.isWhitespace).reverse.length ≤ s.data.length
  rw [List.length_reverse]
  calc ((s.data.dropWhile Char.isWhitespace).reverse.dropWhile Char.isWhitespace).length
      ≤ (s.data.dropWhile Char.isWhitespace).reverse.length :=
        (List.dropWhile_sublist Char.isWhitespace).length_le
    _ = (s.data.dropWhile Char.isWhitespace).length := List.length_reverse _
    _ ≤ s.data.length := (List.dropWhile_sublist Char.isWhitespace).length_le

/-- C5 (amended part).  Every chunk emitted by the section-based
`chunkMarkdownFile` has content of length at least 50: the candidate
sections whose trimmed content is below the threshold are silently
dropped. -/
theorem chunk_content_min_length (content filePath sourceId : String) (ch : Chunk)
    (h : ch ∈ chunkMarkdownFile content filePath sourceId) :
    50 ≤ ch.content.length := by
  simp only [chunkMarkdownFile, List.mem_filterMap] at h
  obtain ⟨sec, _, hsec⟩ := h
  by_cases hlen : (jsTrim sec.content).length < 50
  · rw [if_pos hlen] at hsec
    exact absurd hsec (by simp)
  · rw [if_neg hlen] at hsec
    have hch : ch.content = sec.content := by
      cases hsec
      rfl
    rw [hch]
    exact le_trans (Nat.le_of_not_lt hlen) (jsTrim_length_le sec.content)

/-- A document whose single section is comfortably above the
50-character threshold. -/
def minLenDoc : String :=
  "# Guide\n\nThis section body is long enough to stay above the fifty character minimum."

theorem chunk_content_min_length_witness :
    50 ≤ ((chunkMarkdownFile minLenDoc "f.md" "src1").headD
      ⟨"", "", "", "", none, none, none, ""⟩).content.length :=
  chunk_content_min_length minLenDoc "f.md" "src1" _ (by decide)

/-- The §8 scenario document. -/
def scenarioDoc : String :=
  "# Title\n\n## Usage\n\nDo X. Do Y.\n\n## Caveats\n\nWatch Z."

/-- C7 counterexample.  On the scenario document the chunker does not
produce 2 chunks: it produces none, because both section bodies are
shorter than the 50-character minimum. -/
theorem scenario_not_two_chunks :
    ¬ (chunkMarkdownFile scenarioDoc "doc.md" "lib").length = 2 := by
  decide

/-- C7 (amended).  On the scenario document `splitBySections` does yield
the sections with header contexts h1=Title/h2=Usage and
h1=Title/h2=Caveats (plus an empty section between the two header
lines), but both bodies are under the 50-character minimum, so
`chunkMarkdownFile` emits 0 chunks. -/
theorem scenario_sections_but_zero_chunks :
    splitBySections scenarioDoc =
        [⟨"", some "Title", none, none⟩,
         ⟨"Do X. Do Y.", some "Title", some "Usage", none⟩,
         ⟨"Watch Z.", some "Title", some "Caveats", none⟩] ∧
      chunkMarkdownFile scenarioDoc "doc.md" "lib" = [] := by
  constructor
  · decide
  · decide

/-! ## Embedding batcher (src/unnamed/part_000 OllamaEmbedder.embed and
src/unnamed/part_002 generateEmbeddings)

`embed` slices the input into batches of `batchSize` (5 in the source),
maps the per-text embedding call over each batch (`Promise.all`
reassembles the batch in input order) and appends the batch results in
order.  The per-text call is the external provider, abstracted as a
function `f`. -/

/-- Embeds the batching loop of `OllamaEmbedder.embed`
(src/unnamed/part_000 lines 13-34), generalised over the batch size
(the source fixes `batchSize = 5`).  For a positive batch size each
round processes `texts.slice(i, i + batchSize)` and advances by
`batchSize`; this recursion is that loop with the batch written as the
head plus the next `batchSize - 1` items. -/
def embedBatched (f : String → List Int) (batchSize : Nat) : List String → List (List Int)
  | [] => []
  | t :: ts =>
    (f t :: (ts.take (batchSize - 1)).map f) ++
      embedBatched f batchSize (ts.drop (batchSize - 1))
termination_by l => l.length
decreasing_by
  simp only [List.length_cons, List.length_drop]
  omega

/-- Embeds `generateEmbeddings` (src/unnamed/part_002 lines 208-218):
the texts are embedded one by one, pushing each result in order. -/
def generateEmbeddingsSeq (f : String → List Int) (texts : List String) : List (List Int) :=
  texts.foldl (fun acc t => acc ++ [f t]) []

theorem embedBatched_eq_map (f : String → List Int) (batchSize : Nat)
    (hpos : 1 ≤ batchSize) :
    ∀ texts : List String, embedBatched f batchSize texts = texts.map f := by
  intro texts
  generalize hl : texts.length = n
  induction n using Nat.strong_induction_on generalizing texts with
  | _ n ih =>
    cases texts with
    | nil => rw [embedBatched, List.map_nil]
    | cons t ts =>
      rw [embedBatched, ← List.map_cons]
      rw [ih (ts.drop (batchSize - 1)).length (by
          rw [← hl]
          simp only [List.length_cons, List.length_drop]
          omega)
        (ts.drop (batchSize - 1)) rfl]
      rw [← List.map_append, List.cons_append, List.take_append_drop]

theorem generateEmbeddingsSeq_go (f : String → List Int) :
    ∀ (texts : List String) (acc : List (List Int)),
      texts.foldl (fun a t => a ++ [f t]) acc = acc ++ texts.map f := by
  intro texts
  induction texts with
  | nil => simp
  | cons t ts ih =>
    intro acc
    rw [List.foldl_cons, ih, List.map_cons]
    simp

/-- C3.  For any batch size ≥ 1 (the source uses 5) the batching
embedder returns one vector per input text, in input order: the result
is exactly the input list mapped through the per-text embedding, so it
has the same length and the i-th vector embeds the i-th text.  The
sequential `generateEmbeddings` of part_002 satisfies the same
contract. -/
theorem embed_preserves_order (f : String → List Int) (batchSize : Nat)
    (texts : List String) (hpos : 1 ≤ batchSize) :
    embedBatched f batchSize texts = texts.map f ∧
      (embedBatched f batchSize texts).length = texts.length ∧
      generateEmbeddingsSeq f texts = texts.map f := by
  refine ⟨embedBatched_eq_map f batchSize hpos texts, ?_, ?_⟩
  · rw [embedBatched_eq_map f batchSize hpos texts, List.length_map]
  · rw [generateEmbeddingsSeq, generateEmbeddingsSeq_go]
    rfl

theorem embed_preserves_order_witness :
    embedBatched (fun s => [(s.length : Int)]) 2 ["a", "bc", "def"] =
        ["a", "bc", "def"].map (fun s => [(s.length : Int)]) ∧
      (embedBatched (fun s => [(s.length : Int)]) 2 ["a", "bc", "def"]).length =
        (["a", "bc", "def"] : List String).length ∧
      generateEmbeddingsSeq (fun s => [(s.length : Int)]) ["a", "bc", "def"] =
        ["a", "bc", "def"].map (fun s => [(s.length : Int)]) :=
  embed_preserves_order (fun s => [(s.length : Int)]) 2 ["a", "bc", "def"] (by decide)

/-! ## Recursive markdown file walk (src/src/indexer/chunker.ts lines
63-86 and src/unnamed/part_003 lines 32-55; both copies are identical)

The filesystem is a tree of entries; `readdir` on a directory either
returns its entries or throws (nonexistent path, permissions), which
the walk's per-call `try/catch` swallows.  A directory's `readable`
flag models whether `readdir` succeeds on it.  A file's `content` is
the outcome `fs.readFile` delivers for it: `.ok` its text, or `.error`
for a file that the walk lists but that cannot be read (permissions,
removed between listing and reading) — `readFile` sits outside the
walk's `try/catch`, so that error is not swallowed. -/

inductive FsEntry where
  | file (name : String) (content : Except JsError String)
  | dir (name : String) (readable : Bool) (entries : List FsEntry)

/-- The walk over a directory's entry list: recurse into
sub-directories (an unreadable one contributes nothing, its `readdir`
error being caught) and collect the files whose name ends in `.md`,
paired with what reading them will yield. -/
def walkEntries : List FsEntry → List (String × Except JsError String)
  | [] => []
  | .file n c :: rest =>
    (if jsEndsWith n ".md" then [(n, c)] else []) ++ walkEntries rest
  | .dir _ readable es :: rest =>
    (if readable then walkEntries es else []) ++ walkEntries rest

/-- Embeds `getAllMarkdownFiles`: `walk(dir)` starts by `readdir(dir)`;
if the root is not a readable directory the error is caught and the
file list stays empty. -/
def getAllMarkdownFiles : FsEntry → List (String × Except JsError String)
  | .dir _ true es => walkEntries es
  | _ => []

/-- The read-and-chunk loop of `chunkMarkdownFiles`
(src/unnamed/part_003 lines 23-27): `fs.readFile` on each collected
file is outside any `try/catch`, so the first failing read raises out
of the loop; otherwise each file's chunks are appended in order. -/
def readAndChunk (sourceId : String) :
    List (String × Except JsError String) → Except JsError (List Chunk)
  | [] => .ok []
  | (_, .error e) :: _ => .error e
  | (name, .ok content) :: rest =>
    match readAndChunk sourceId rest with
    | .error e => .error e
    | .ok acc => .ok (chunkMarkdownFile content name sourceId ++ acc)

/-- Embeds `chunkMarkdownFiles` (src/unnamed/part_003 lines 17-30):
collect the markdown files, then read and chunk each one. -/
def chunkMarkdownFiles (sourceId : String) (rawDir : FsEntry) :
    Except JsError (List Chunk) :=
  readAndChunk sourceId (getAllMarkdownFiles rawDir)

theorem walkEntries_md_only (f : String × Except JsError String) :
    ∀ es : List FsEntry, f ∈ walkEntries es → jsEndsWith f.1 ".md" = true := by
  intro es
  match es with
  | [] =>
    intro h
    rw [walkEntries] at h
    exact absurd h (List.not_mem_nil f)
  | .file n c :: rest =>
    intro h
    rw [walkEntries, List.mem_append] at h
    cases h with
    | inl h =>
      by_cases hmd : jsEndsWith n ".md" = true
      · rw [if_pos hmd] at h
        simp only [List.mem_singleton] at h
        rw [h]
        exact hmd
      · rw [if_neg hmd] at h
        exact absurd h (List.not_mem_nil f)
    | inr h => exact walkEntries_md_only f rest h
  | .dir n readable es' :: rest =>
    intro h
    rw [walkEntries, List.mem_append] at h
    cases h with
    | inl h =>
      cases readable with
      | false => exact absurd (by simpa using h) (List.not_mem_nil f)
      | true =>
        rw [if_pos rfl] at h
        exact walkEntries_md_only f es' h
    | inr h => exact walkEntries_md_only f rest h
termination_by es => sizeOf es
decreasing_by
  all_goals simp_wf
  all_goals omega

/-- C10 counterexample.  `fs.readFile` is outside the walk's
`try/catch`: a readable directory whose listed `bad.md` fails to read
makes `chunkMarkdownFiles` raise that error to its caller instead of
returning a chunk list — the walk's error swallowing does not extend to
the reads. -/
theorem chunkMarkdownFiles_read_failure_raises :
    chunkMarkdownFiles "src1"
        (.dir "root" true [.file "bad.md" (.error ⟨"EACCES: permission denied"⟩)]) =
      .error ⟨"EACCES: permission denied"⟩ := by
  show readAndChunk "src1"
    (walkEntries [.file "bad.md" (.error ⟨"EACCES: permission denied"⟩)]) = _
  simp only [walkEntries]
  rw [if_pos (by decide)]
  rfl

/-- C10 (amended).  The walk swallows per-directory `readdir` errors:
a nonexistent or unreadable raw directory yields the empty file list
and `chunkMarkdownFiles` returns the empty chunk list without raising,
and only files whose names end in `.md` are ever handed to `readFile`;
the reads themselves sit outside the `try/catch`, so a listed `.md`
file that fails to read makes `chunkMarkdownFiles` raise (see the
counterexample). -/
theorem chunkMarkdownFiles_dir_errors_swallowed
    (sourceId dirName : String) (entries : List FsEntry) (root : FsEntry)
    (f : String × Except JsError String) (hf : f ∈ getAllMarkdownFiles root) :
    getAllMarkdownFiles (.dir dirName false entries) = [] ∧
      chunkMarkdownFiles sourceId (.dir dirName false entries) = .ok [] ∧
      jsEndsWith f.1 ".md" = true := by
  refine ⟨rfl, rfl, ?_⟩
  cases root with
  | file n c => exact absurd hf (List.not_mem_nil f)
  | dir n readable es =>
    cases readable with
    | false => exact absurd hf (List.not_mem_nil f)
    | true => exact walkEntries_md_only f es hf

theorem chunkMarkdownFiles_dir_errors_witness :
    getAllMarkdownFiles (.dir "raw" false []) = [] ∧
      chunkMarkdownFiles "src1" (.dir "raw" false []) = .ok [] ∧
      jsEndsWith ("a.md", (Except.ok "hello" : Except JsError String)).1 ".md" = true :=
  chunkMarkdownFiles_dir_errors_swallowed "src1" "raw" []
    (.dir "root" true [.file "a.md" (.ok "hello")]) ("a.md", .ok "hello")
    (by
      have hmd : jsEndsWith "a.md" ".md" = true := by decide
      show ("a.md", Except.ok "hello") ∈ walkEntries [.file "a.md" (.ok "hello")]
      rw [walkEntries, walkEntries, if_pos hmd]
      simp)

/-! ## Recursive separator splitter (configured in
src/src/indexer/chunker.ts, implemented by a third-party library) -/

structure ChunkerConfig where
  chunkSize : Nat
  chunkOverlap : Nat
  separators : List String
deriving DecidableEq, Repr

/-- Embeds `configureChunker` (src/src/indexer/chunker.ts lines 36-46):
it instantiates the recursive splitter with `chunkSize`, `chunkOverlap`,
the token-counting length function and the separator ladder
paragraph, line, sentence, word, character. -/
def configureChunker (chunkSize chunkOverlap : Nat) : ChunkerConfig :=
  ⟨chunkSize, chunkOverlap, ["\n\n", "\n", ". ", " ", ""]⟩

/-- Candidate segments obtained by splitting on one separator; the
empty separator is the hard character split. -/
def splitCandidates (sep : String) (text : String) : List String :=
  match sep.data with
  | [] => text.data.map (fun c => String.mk [c])
  | c :: cs => (splitOnList c cs text.data).map String.mk

/-- Modelled from the spec: the recursive separator splitting of §4.2,
whose implementation (`RecursiveCharacterTextSplitter` from the
`@langchain/textsplitters` dependency) is not part of this repository —
`configureChunker` only supplies its parameters.  A candidate segment
whose token length fits within `chunkSize` is emitted; otherwise it is
split by the next separator of the ladder and the pieces are processed
with the remaining, finer separators.  The greedy re-merging and the
overlap between adjacent emitted segments are not modelled: they
assemble candidate segments subject to the same bound check. -/
def recSplit (tok : String → Nat) (chunkSize : Nat) : List String → String → List String
  | [], text => [text]
  | s :: rest, text =>
    if tok text ≤ chunkSize then [text]
    else (splitCandidates s text).flatMap (recSplit tok chunkSize rest)

/-- The configured splitter entry point (`textSplitter.createDocuments`). -/
def splitTextSpec (tok : String → Nat) (cfg : ChunkerConfig) (text : String) : List String :=
  recSplit tok cfg.chunkSize cfg.separators text

theorem recSplit_fits (tok : String → Nat) (chunkSize : Nat)
    (text : String) (hfit : tok text ≤ chunkSize) :
    ∀ seps : List String, recSplit tok chunkSize seps text = [text] := by
  intro seps
  cases seps with
  | nil => rfl
  | cons s rest => rw [recSplit, if_pos hfit]

theorem recSplit_bound (tok : String → Nat) (chunkSize : Nat)
    (hchar : ∀ c : Char, tok ⟨[c]⟩ ≤ chunkSize) :
    ∀ seps : List String, "" ∈ seps →
      ∀ text ch, ch ∈ recSplit tok chunkSize seps text → tok ch ≤ chunkSize := by
  intro seps
  induction seps with
  | nil => intro h; exact absurd h (List.not_mem_nil "")
  | cons s rest ih =>
    intro hmem text ch hch
    rw [recSplit] at hch
    by_cases hfit : tok text ≤ chunkSize
    · rw [if_pos hfit] at hch
      simp only [List.mem_singleton] at hch
      rw [hch]
      exact hfit
    · rw [if_neg hfit] at hch
      rw [List.mem_flatMap] at hch
      obtain ⟨piece, hpiece, hchp⟩ := hch
      by_cases hrest : "" ∈ rest
      · exact ih hrest piece ch hchp
      · have hs : s = "" := by
          cases List.mem_cons.mp hmem with
          | inl h => exact h.symm
          | inr h => exact absurd h hrest
        subst hs
        simp only [splitCandidates, List.mem_map] at hpiece
        obtain ⟨c, _, hc⟩ := hpiece
        have hfitc : tok piece ≤ chunkSize := by
          rw [← hc]
          exact hchar c
        rw [recSplit_fits tok chunkSize piece hfitc rest] at hchp
        simp only [List.mem_singleton] at hchp
        rw [hchp]
        exact hfitc

/-- C4.  For chunking parameters with `chunkOverlap < chunkSize` and a
token counter under which a single character always fits (the spec's
"character-level splitting is always available as a fallback"), every
chunk produced by the configured recursive splitter has token length at
most `chunkSize`. -/
theorem splitter_chunks_within_chunkSize
    (tok : String → Nat) (chunkSize chunkOverlap : Nat) (text ch : String)
    (hover : chunkOverlap < chunkSize)
    (hchar : ∀ c : Char, tok ⟨[c]⟩ ≤ chunkSize)
    (hch : ch ∈ splitTextSpec tok (configureChunker chunkSize chunkOverlap) text) :
    tok ch ≤ chunkSize :=
  recSplit_bound tok chunkSize hchar ["\n\n", "\n", ". ", " ", ""]
    (by simp) text ch hch

theorem splitter_chunks_within_chunkSize_witness :
    (fun s : String => s.length) "b" ≤ 5 := by
  refine splitter_chunks_within_chunkSize (fun s => s.length) 5 2 "abcdefgh" "b"
    (by decide) (fun c => by simp [String.length]) ?_
  show "b" ∈ recSplit (fun s => s.length) 5 ["\n\n", "\n", ". ", " ", ""] "abcdefgh"
  decide

/-- Embeds `chunkMarkdownFile` of the splitter-based chunker
(src/src/indexer/chunker.ts lines 88-116): parse the frontmatter, make
the `h1 > h2 > h3` header context (dropping missing or empty values),
optionally put it in front of the body, run the configured splitter and
wrap each piece as a chunk — with no minimum-length filter.  The
splitter itself is the spec-modelled `splitTextSpec`; the token counter
`tok` is the external tiktoken encoder. -/
def chunkMarkdownFileLC (tok : String → Nat) (cfg : ChunkerConfig)
    (content filePath sourceId : String) : List Chunk :=
  let fm := (parseFrontmatter content).1
  let markdown := (parseFrontmatter content).2
  let hs := ([fmGet fm "h1", fmGet fm "h2", fmGet fm "h3"].filterMap id).filter
    (fun s => !(s == ""))
  let headers := jsJoin " > " hs
  let textToChunk := if headers == "" then markdown else headers ++ "\n\n" ++ markdown
  (splitTextSpec tok cfg textToChunk).map fun t =>
    ⟨t, { source_id := sourceId
          url := jsOrDefault (fmGet fm "url") ""
          title := jsOrDefault (fmGet fm "title") ""
          h1 := fmGet fm "h1"
          h2 := fmGet fm "h2"
          h3 := fmGet fm "h3"
          file_path := filePath }⟩

/-- C5 counterexample.  The splitter-based chunker applies no
minimum-length filter: on the document `"Use feedd."` (which fits into
one chunk under the default 1800-token configuration, with token
counter = character count) it emits exactly one chunk whose content is
10 characters long — well below the 50-character threshold the claim
asserts for every chunk. -/
theorem chunkLC_emits_short_chunk :
    ((chunkMarkdownFileLC (fun s => s.length) (configureChunker 1800 270)
        "Use feedd." "f.md" "src1").map (fun ch => ch.content) = ["Use feedd."]) ∧
      ¬ 50 ≤ ("Use feedd." : String).length := by
  constructor
  · decide
  · decide

/-! ## Ingestion run (src/src/indexer/index.ts lines 8-57)

`indexSource` checks the embedding provider, chunks the crawled files,
generates the embeddings, and only then mutates the vector store:
delete the old collection, recreate it, upsert the new chunks.  The
store is the collection map; external outcomes (provider availability,
model check, per-text embedding) are inputs.  Alongside the result and
the final store, the embedding also returns the trace of store
operations actually performed, to state when the mutations happen. -/

structure ChunkRecord where
  content : String
  vector : List Int
deriving DecidableEq, Repr

structure WriteStore where
  colls : List (String × List ChunkRecord)
deriving DecidableEq, Repr

inductive StoreOp where
  | del (id : String)
  | create (id : String)
  | add (id : String) (count : Nat)
deriving DecidableEq, Repr

/-- Embeds `deleteCollection` (src/src/indexer/vectordb.ts lines
66-77): drop the collection; a missing collection is silently ignored
(the `does not exist` error is caught). -/
def deleteCollectionW (st : WriteStore) (sourceId : String) : WriteStore :=
  ⟨st.colls.filter (fun p => !(p.1 == sourceId))⟩

/-- Embeds `getOrCreateCollection` (src/src/indexer/vectordb.ts lines
15-26): return the existing collection or create an empty one. -/
def getOrCreateCollectionW (st : WriteStore) (sourceId : String) : WriteStore :=
  match st.colls.find? (fun p => p.1 == sourceId) with
  | some _ => st
  | none => ⟨st.colls ++ [(sourceId, [])]⟩

/-- Append records to a collection of the store. -/
def appendToCollection (st : WriteStore) (sourceId : String)
    (records : List ChunkRecord) : WriteStore :=
  ⟨st.colls.map (fun p => if p.1 == sourceId then (p.1, p.2 ++ records) else p)⟩

/-- Embeds `addChunksToCollection` (src/src/indexer/vectordb.ts lines
28-64): lengths of chunks and embeddings must agree, the empty input is
a no-op, otherwise the records are added to the collection. -/
def addChunksToCollection (st : WriteStore) (sourceId : String)
    (chunks : List Chunk) (embeddings : List (List Int)) :
    Except JsError WriteStore :=
  if chunks.length ≠ embeddings.length then
    .error ⟨"Chunks and embeddings arrays must have the same length"⟩
  else if chunks.length = 0 then .ok st
  else .ok (appendToCollection st sourceId
    (chunks.zip embeddings |>.map fun pe => ⟨pe.1.content, pe.2⟩))

/-- The text handed to the embedder for a chunk
(src/src/indexer/index.ts lines 36-45): header context joined with
` > ` (missing or empty levels dropped) in front of the content. -/
def chunkEmbedText (ch : Chunk) : String :=
  let hs := ([ch.metadata.h1, ch.metadata.h2, ch.metadata.h3].filterMap id).filter
    (fun s => !(s == ""))
  let headers := jsJoin " > " hs
  if headers == "" then ch.content else headers ++ "\n\n" ++ ch.content

/-- Embeds `generateEmbeddings` with a fallible per-text provider call:
the first failing text aborts the loop. -/
def generateEmbeddingsE (f : String → Except JsError (List Int)) :
    List String → Except JsError (List (List Int))
  | [] => .ok []
  | t :: ts =>
    match f t with
    | .error e => .error e
    | .ok v =>
      match generateEmbeddingsE f ts with
      | .error e => .error e
      | .ok vs => .ok (v :: vs)

/-- External outcomes feeding one ingestion run. -/
structure IndexEnv where
  ollamaUp : Bool
  modelOk : Except JsError Unit
  fs : FsEntry
  embedSingle : String → Except JsError (List Int)

/-- Embeds `indexSource` (src/src/indexer/index.ts lines 8-57).
Returns the run result, the final store, and the trace of store
operations performed, in order. -/
def indexSource (env : IndexEnv) (sourceId : String) (st : WriteStore) :
    Except JsError Nat × WriteStore × List StoreOp :=
  match env.ollamaUp with
  | false => (.error ⟨"Ollama is not available."⟩, st, [])
  | true =>
    match env.modelOk with
    | .error e => (.error ⟨"Failed to ensure model: " ++ e.message⟩, st, [])
    | .ok _ =>
      match chunkMarkdownFiles sourceId env.fs with
      | .error e => (.error e, st, [])
      | .ok chunks =>
        if chunks.length = 0 then
          (.error ⟨"No content to index. Make sure the source was crawled successfully."⟩,
            st, [])
        else
          match generateEmbeddingsE env.embedSingle (chunks.map chunkEmbedText) with
          | .error e => (.error e, st, [])
          | .ok embeddings =>
            match addChunksToCollection
              (getOrCreateCollectionW (deleteCollectionW st sourceId) sourceId)
              sourceId chunks embeddings with
            | .error e =>
              (.error e, getOrCreateCollectionW (deleteCollectionW st sourceId) sourceId,
                [.del sourceId, .create sourceId])
            | .ok st3 =>
              (.ok chunks.length, st3,
                [.del sourceId, .create sourceId, .add sourceId chunks.length])

/-- C9.  If embedding generation fails, `indexSource` raises and leaves
the vector store exactly as it was — in particular the collection
written by a previous successful run is intact — and performs no store
operation at all; on a successful run the operation trace is delete,
then create, then upsert, so the old collection is deleted only after
all embeddings were generated and immediately before the new chunks are
written. -/
theorem indexSource_embed_failure_preserves_store
    (env : IndexEnv) (sourceId : String) (st : WriteStore)
    (chunks : List Chunk) (e : JsError)
    (hchunks : chunkMarkdownFiles sourceId env.fs = .ok chunks)
    (hembed : generateEmbeddingsE env.embedSingle
      (chunks.map chunkEmbedText) = .error e) :
    ((indexSource env sourceId st).1.isOk = false ∧
      (indexSource env sourceId st).2.1 = st ∧
      (indexSource env sourceId st).2.2 = []) ∧
    (∀ (env' : IndexEnv) (st' : WriteStore) (n : Nat),
      (indexSource env' sourceId st').1 = .ok n →
      (indexSource env' sourceId st').2.2 =
        [.del sourceId, .create sourceId, .add sourceId n]) := by
  constructor
  · unfold indexSource
    cases hup : env.ollamaUp with
    | false => exact ⟨rfl, rfl, rfl⟩
    | true =>
      cases hmodel : env.modelOk with
      | error em => exact ⟨rfl, rfl, rfl⟩
      | ok u =>
        rw [hchunks]
        dsimp only
        by_cases hz : chunks.length = 0
        · rw [if_pos hz]
          exact ⟨rfl, rfl, rfl⟩
        · rw [if_neg hz, hembed]
          exact ⟨rfl, rfl, rfl⟩
  · intro env' st' n
    unfold indexSource
    cases hup : env'.ollamaUp with
    | false => intro hok; exact absurd hok (by simp)
    | true =>
      cases hmodel : env'.modelOk with
      | error em => intro hok; exact absurd hok (by simp)
      | ok u =>
        cases hcm : chunkMarkdownFiles sourceId env'.fs with
        | error em => intro hok; exact absurd hok (by simp)
        | ok chunks' =>
          dsimp only
          by_cases hz : chunks'.length = 0
          · rw [if_pos hz]
            intro hok
            exact absurd hok (by simp)
          · rw [if_neg hz]
            cases hemb : generateEmbeddingsE env'.embedSingle
                (chunks'.map chunkEmbedText) with
            | error em => intro hok; exact absurd hok (by simp)
            | ok vs =>
              cases hadd : addChunksToCollection
                  (getOrCreateCollectionW (deleteCollectionW st' sourceId) sourceId)
                  sourceId chunks' vs with
              | error em => intro hok; exact absurd hok (by simp [hadd])
              | ok st3 =>
                intro hok
                have hn : chunks'.length = n := by
                  simpa [hadd] using hok
                rw [← hn]
                simp [hadd]

/-- One markdown file whose single section passes the 50-character
minimum, for a run whose embedding provider fails. -/
def c9Fs : FsEntry :=
  .dir "raw" true [.file "doc.md" (.ok minLenDoc)]

def c9Env : IndexEnv :=
  ⟨true, .ok (), c9Fs, fun _ => .error ⟨"embedding boom"⟩⟩

def c9Store : WriteStore :=
  ⟨[("src1", [⟨"old chunk", [1, 2]⟩])]⟩

theorem indexSource_embed_failure_witness :
    (((indexSource c9Env "src1" c9Store).1.isOk = false ∧
      (indexSource c9Env "src1" c9Store).2.1 = c9Store ∧
      (indexSource c9Env "src1" c9Store).2.2 = []) ∧
    (∀ (env' : IndexEnv) (st' : WriteStore) (n : Nat),
      (indexSource env' "src1" st').1 = .ok n →
      (indexSource env' "src1" st').2.2 =
        [.del "src1", .create "src1", .add "src1" n])) :=
  indexSource_embed_failure_preserves_store c9Env "src1" c9Store
    (chunkMarkdownFile minLenDoc "doc.md" "src1" ++ []) ⟨"embedding boom"⟩
    (by
      have hwalk : getAllMarkdownFiles c9Fs = [("doc.md", Except.ok minLenDoc)] := by
        show walkEntries [.file "doc.md" (.ok minLenDoc)] =
          [("doc.md", Except.ok minLenDoc)]
        simp only [walkEntries]
        rw [if_pos (by decide)]
        simp
      show chunkMarkdownFiles "src1" c9Fs =
        Except.ok (chunkMarkdownFile minLenDoc "doc.md" "src1" ++ [])
      unfold chunkMarkdownFiles
      rw [hwalk]
      rfl)
    (by rfl)

end Feedd
